import Mathlib

/-!
Verification of the swaybar status producer (`src/main.rs`).

The repository is a single Rust binary: three wire entities (`Header`,
`Block`, `ClientEvent`) serialized with serde_json, and a `main` loop that
writes a header line, opens a JSON array, and forever appends one-block
snapshots while draining stdin up to each closing-brace byte.

All three wire entities are flat JSON objects whose values are booleans,
unsigned integers, or strings, so the wire values are modelled by the
scalar type `JVal`; objects are association lists in field-declaration
order, exactly the order serde's derived serializer emits.  Printing
mirrors serde_json's compact printer, including its string-escaping table.
The streaming loop of `main` is modelled by explicit state passing over a
`Stdin` state; a panic (a failed `unwrap`) is an explicit boolean flag.
-/

/-- Scalar JSON value as used by the three wire entities.  Numbers on this
wire are unsigned integers (`u8`/`u32` in the source), modelled as `Nat`. -/
inductive JVal where
  | bool (b : Bool)
  | num (n : Nat)
  | str (s : String)
deriving DecidableEq

/-- The lowercase hex digit table used for `\u00XX` escapes (and, on its
first ten entries, for decimal printing). -/
def hexDigits : List Char := ("0123456789abcdef").data

/-- Digit `n` of the table; out-of-range input yields '0', and every call
site passes a value below 16. -/
def hexDigit16 (n : Nat) : Char := hexDigits.getD n '0'

/-- A backslash followed by the escape letter (or escaped character). -/
def escPair (e : Char) : List Char := ['\\', e]

/-- serde_json's string escaping for one character: `"` and `\` get a
backslash escape, the five short control escapes are used where they
exist, any other control character below 0x20 becomes `\u00XX`, and every
other character is passed through unchanged. -/
def escChar (c : Char) : List Char :=
  if c = '"' then escPair c
  else if c = '\\' then escPair c
  else if c = '\x08' then escPair 'b'
  else if c = '\x09' then escPair 't'
  else if c = '\x0a' then escPair 'n'
  else if c = '\x0c' then escPair 'f'
  else if c = '\x0d' then escPair 'r'
  else if c.toNat < 0x20 then
    escPair 'u' ++ ('0' :: '0' ::
      hexDigit16 (c.toNat / 16) :: [hexDigit16 (c.toNat % 16)])
  else [c]

/-- Escape a whole character sequence. -/
def escList : List Char → List Char
  | [] => []
  | c :: cs => escChar c ++ escList cs

/-- A JSON string literal: quote, escaped body, quote. -/
def printStrL (s : String) : List Char :=
  '"' :: (escList s.data ++ ['"'])

/-- Decimal digits of `n`, fuel-driven so that it reduces definitionally;
`toDecimal` always supplies enough fuel. -/
def toDecimalAux : Nat → Nat → List Char
  | 0, _ => []
  | fuel + 1, n =>
    if n < 10 then [hexDigit16 n]
    else toDecimalAux fuel (n / 10) ++ [hexDigit16 (n % 10)]

/-- Decimal printing of an unsigned integer (the itoa output serde_json
uses for `u8`/`u32` values). -/
def toDecimal (n : Nat) : List Char := toDecimalAux (n + 1) n

/-- Print one scalar value, as serde_json prints it. -/
def printValL : JVal → List Char
  | .bool true => ['t', 'r', 'u', 'e']
  | .bool false => ['f', 'a', 'l', 's', 'e']
  | .num n => toDecimal n
  | .str s => printStrL s

/-- One `"key":value` member of an object. -/
def printFieldL (kv : String × JVal) : List Char :=
  printStrL kv.1 ++ (':' :: printValL kv.2)

/-- Comma-separated concatenation, serde_json's member separator. -/
def joinComma : List (List Char) → List Char
  | [] => []
  | [x] => x
  | x :: y :: rest => x ++ (',' :: joinComma (y :: rest))

/-- Compact printing of a flat object: `{` members `}`. -/
def printObjL (fields : List (String × JVal)) : String :=
  ⟨'\x7b' :: (joinComma (fields.map printFieldL) ++ ['\x7d'])⟩

/-- A serde field that is skipped when unset
(`#[serde(skip_serializing_if = Option.is_none)]` in the source): an unset
field contributes no member at all, a set one contributes exactly one. -/
def optField (k : String) (v : Option JVal) : List (String × JVal) :=
  match v with
  | none => []
  | some j => [(k, j)]

/-- The swaybar protocol header (struct `Header` in `src/main.rs`).
`version` is a `u8` in the source, the three optional fields are
`Option<bool>` / `Option<u32>` / `Option<u32>`. -/
structure Header where
  version : Nat
  click_events : Option Bool
  const_signal : Option Nat
  stop_signal : Option Nat
deriving DecidableEq

/-- `Header::new(version)`: only `version` set. -/
def Header.new (version : Nat) : Header :=
  ⟨version, none, none, none⟩

/-- The members of the serialized `Header` object, in declaration order,
skipping unset optional fields — the output of serde's derived serializer
viewed as an association list. -/
def headerFields (h : Header) : List (String × JVal) :=
  ("version", JVal.num h.version) ::
    (optField "click_events" (h.click_events.map JVal.bool) ++
      (optField "const_signal" (h.const_signal.map JVal.num) ++
        optField "stop_signal" (h.stop_signal.map JVal.num)))

/-- `serde_json::to_string(&header)`. -/
def headerToString (h : Header) : String :=
  printObjL (headerFields h)

/-- One status-line block (struct `Block` in `src/main.rs`), field names
and order exactly as declared there, including the `seperator` spelling
and the `Option<bool>` type of `seperator_block_width`.  (`instance` is a
Lean keyword, hence the guillemets.) -/
structure Block where
  full_text : String
  short_text : Option String
  name : Option String
  color : Option String
  background : Option String
  border : Option String
  border_top : Option Nat
  border_right : Option Nat
  border_bottom : Option Nat
  border_left : Option Nat
  min_width : Option Nat
  align : Option String
  «instance» : Option String
  urgent : Option Bool
  seperator : Option Bool
  seperator_block_width : Option Bool
  markup : Option String
deriving DecidableEq

/-- `Block::new(full_text)`: only `full_text` set. -/
def Block.new (full_text : String) : Block :=
  ⟨full_text, none, none, none, none, none, none, none, none, none, none,
    none, none, none, none, none, none⟩

/-- The `color` mutator (`fn color(&mut self, color: String)` in the
source), modelled functionally. -/
def Block.setColor (b : Block) (color : String) : Block :=
  { b with color := some color }

/-- The `background` mutator (`fn background(&mut self, background:
String)` in the source), modelled functionally. -/
def Block.setBackground (b : Block) (background : String) : Block :=
  { b with background := some background }

/-- The `with_seperator` mutator: sets `seperator` to `Some(true)`. -/
def Block.with_seperator (b : Block) : Block :=
  { b with seperator := some true }

/-- The members of the serialized `Block` object, in declaration order,
skipping unset optional fields. -/
def blockFields (b : Block) : List (String × JVal) :=
  ("full_text", JVal.str b.full_text) ::
    (optField "short_text" (b.short_text.map JVal.str) ++
      (optField "name" (b.name.map JVal.str) ++
        (optField "color" (b.color.map JVal.str) ++
          (optField "background" (b.background.map JVal.str) ++
            (optField "border" (b.border.map JVal.str) ++
              (optField "border_top" (b.border_top.map JVal.num) ++
                (optField "border_right" (b.border_right.map JVal.num) ++
                  (optField "border_bottom" (b.border_bottom.map JVal.num) ++
                    (optField "border_left" (b.border_left.map JVal.num) ++
                      (optField "min_width" (b.min_width.map JVal.num) ++
                        (optField "align" (b.align.map JVal.str) ++
                          (optField "instance" (b.«instance».map JVal.str) ++
                            (optField "urgent" (b.urgent.map JVal.bool) ++
                              (optField "seperator" (b.seperator.map JVal.bool) ++
                                (optField "seperator_block_width"
                                    (b.seperator_block_width.map JVal.bool) ++
                                  optField "markup" (b.markup.map JVal.str))))))))))))))))

/-- `serde_json::to_string(&block)`. -/
def blockToString (b : Block) : String :=
  printObjL (blockFields b)

/-- A click event read back from the host (struct `ClientEvent` in
`src/main.rs`): ten required fields, two strings and eight `u32`s. -/
structure ClientEvent where
  name : String
  «instance» : String
  x : Nat
  y : Nat
  button : Nat
  event : Nat
  relative_x : Nat
  relative_y : Nat
  width : Nat
  height : Nat
deriving DecidableEq

/-- `u32::MAX + 1`: the bound a JSON number must satisfy to decode into a
`u32` field. -/
def u32Bound : Nat := 4294967296

/-- Partial `ClientEvent` accumulated while serde's derived deserializer
walks the members of the input object. -/
structure CEAcc where
  name : Option String
  «instance» : Option String
  x : Option Nat
  y : Option Nat
  button : Option Nat
  event : Option Nat
  relative_x : Option Nat
  relative_y : Option Nat
  width : Option Nat
  height : Option Nat
deriving DecidableEq

/-- All fields still missing. -/
def initCE : CEAcc :=
  ⟨none, none, none, none, none, none, none, none, none, none⟩

/-- One serde field slot holding a string: seeing it twice is an error,
its value must be a JSON string. -/
def putStr (cur : Option String) (v : JVal) (upd : String → CEAcc) :
    Except String CEAcc :=
  match cur with
  | some _ => .error "duplicate field"
  | none =>
    match v with
    | .str s => .ok (upd s)
    | _ => .error "invalid type"

/-- One serde field slot holding a `u32`: seeing it twice is an error, its
value must be a JSON number that fits in a `u32`. -/
def putU32 (cur : Option Nat) (v : JVal) (upd : Nat → CEAcc) :
    Except String CEAcc :=
  match cur with
  | some _ => .error "duplicate field"
  | none =>
    match v with
    | .num n => if n < u32Bound then .ok (upd n) else .error "invalid value"
    | _ => .error "invalid type"

/-- Process one member of the input object, as serde's derived
deserializer does: a known key must not repeat and its value must have
the field's type; an unknown key is skipped (no `deny_unknown_fields` on
the struct). -/
def stepCE (acc : CEAcc) (kv : String × JVal) : Except String CEAcc :=
  if kv.1 == "name" then putStr acc.name kv.2 fun s => { acc with name := some s }
  else if kv.1 == "instance" then putStr acc.«instance» kv.2 fun s => { acc with «instance» := some s }
  else if kv.1 == "x" then putU32 acc.x kv.2 fun n => { acc with x := some n }
  else if kv.1 == "y" then putU32 acc.y kv.2 fun n => { acc with y := some n }
  else if kv.1 == "button" then putU32 acc.button kv.2 fun n => { acc with button := some n }
  else if kv.1 == "event" then putU32 acc.event kv.2 fun n => { acc with event := some n }
  else if kv.1 == "relative_x" then putU32 acc.relative_x kv.2 fun n => { acc with relative_x := some n }
  else if kv.1 == "relative_y" then putU32 acc.relative_y kv.2 fun n => { acc with relative_y := some n }
  else if kv.1 == "width" then putU32 acc.width kv.2 fun n => { acc with width := some n }
  else if kv.1 == "height" then putU32 acc.height kv.2 fun n => { acc with height := some n }
  else .ok acc

/-- Walk the members of the input object in order. -/
def walkCE : CEAcc → List (String × JVal) → Except String CEAcc
  | acc, [] => .ok acc
  | acc, kv :: rest =>
    match stepCE acc kv with
    | .error e => .error e
    | .ok acc' => walkCE acc' rest

/-- After the walk, every required field must have been seen. -/
def finishCE (acc : CEAcc) : Except String ClientEvent :=
  match acc.name, acc.«instance», acc.x, acc.y, acc.button, acc.event,
      acc.relative_x, acc.relative_y, acc.width, acc.height with
  | some nm, some inst, some x, some y, some bu, some ev, some rx, some ry,
      some w, some h => .ok ⟨nm, inst, x, y, bu, ev, rx, ry, w, h⟩
  | _, _, _, _, _, _, _, _, _, _ => .error "missing field"

/-- `serde_json::from_str` for `ClientEvent`, at the object level: the
input object is its member list in textual order. -/
def decodeClientEvent (fields : List (String × JVal)) : Except String ClientEvent :=
  match walkCE initCE fields with
  | .error e => .error e
  | .ok acc => finishCE acc

/-- The members of the serialized `ClientEvent` object, in declaration
order (serde's derived serializer). -/
def ceFields (e : ClientEvent) : List (String × JVal) :=
  [("name", JVal.str e.name), ("instance", JVal.str e.«instance»),
    ("x", JVal.num e.x), ("y", JVal.num e.y), ("button", JVal.num e.button),
    ("event", JVal.num e.event), ("relative_x", JVal.num e.relative_x),
    ("relative_y", JVal.num e.relative_y), ("width", JVal.num e.width),
    ("height", JVal.num e.height)]

/-- The ten required keys of `ClientEvent`. -/
def ceRequiredKeys : List String :=
  ["name", "instance", "x", "y", "button", "event", "relative_x",
    "relative_y", "width", "height"]

/-! ## The streaming loop of `main` -/

/-- The process's standard input, as the loop sees it: the bytes still
unread, plus a flag saying the next read call fails with an IO error
(`read_until` returning `Err`). -/
structure Stdin where
  data : List Char
  fail : Bool
deriving DecidableEq

/-- Split off the bytes up to and including the first closing brace; when
no brace remains, everything is consumed (the EOF behaviour of
`read_until`). -/
def takeToBrace : List Char → List Char × List Char
  | [] => ([], [])
  | c :: cs =>
    if c = '\x7d' then ([c], cs)
    else
      let (a, b) := takeToBrace cs
      (c :: a, b)

/-- `stdin.read_until(b'\x7d', &mut buf)`: `none` models an IO error. -/
def readUntilBrace (s : Stdin) : Option (List Char × Stdin) :=
  if s.fail then none
  else
    let (a, b) := takeToBrace s.data
    some (a, ⟨b, false⟩)

/-- The block `main` builds each tick: `Block::new(text)` followed by
`with_seperator()`. -/
def mainBlock (s : String) : Block :=
  (Block.new s).with_seperator

/-- The bytes one tick writes: `write!(stdout, "[\x7b\x7d],", body)` with
`body = serde_json::to_string(&block)`. -/
def fragChars (s : String) : List Char :=
  '[' :: ((blockToString (mainBlock s)).data ++ [']', ','])

/-- One iteration of the loop: write the snapshot fragment and flush,
sleep, then read stdin up to the next brace, unwrapping the result (the
read bytes are dropped — `buf` is never decoded).  The `Bool` is the
panic flag: `true` when the `unwrap` of the read panicked. -/
def stepTick (texts : Nat → String) (i : Nat) (st : Stdin) :
    List Char × Stdin × Bool :=
  let out := fragChars (texts i)
  match readUntilBrace st with
  | none => (out, st, true)
  | some (_, st') => (out, st', false)

/-- Run `n` iterations of the loop starting at tick index `i`,
accumulating the bytes written; stop early when an iteration panics. -/
def runFrom (texts : Nat → String) (i : Nat) : Nat → Stdin → List Char × Stdin × Bool
  | 0, st => ([], st, false)
  | n + 1, st =>
    let (o, st', p) := stepTick texts i st
    if p then (o, st', true)
    else
      let (o', st'', p') := runFrom texts (i + 1) n st'
      (o ++ o', st'', p')

/-- The bytes `main` writes before the loop:
`write!(stdout, "\x7b\x7d\n[", header)` — header JSON, newline, the
array-open token. -/
def initOutput : List Char :=
  (headerToString (Header.new 1)).data ++ ('\n' :: ['['])

/-- `main`, run for `n` loop iterations against input state `st`: the
bytes written to stdout, the final input state, and the panic flag. -/
def runMain (texts : Nat → String) (n : Nat) (st : Stdin) :
    List Char × Stdin × Bool :=
  let (o, st', p) := runFrom texts 0 n st
  (initOutput ++ o, st', p)

/-- The canonical list of snapshot fragments emitted by ticks
`i, i+1, ..., i+n-1`. -/
def snapshots (texts : Nat → String) (i n : Nat) : List (List Char) :=
  (List.range' i n).map fun j => fragChars (texts j)

/-- A character that serde passes through verbatim and that plays no role
in the bracket structure of the stream: printable, not a quote or
backslash (so it is not escaped), not a square bracket.  Every character
the clock content source produces is plain. -/
def plainChar (c : Char) : Prop :=
  0x20 ≤ c.toNat ∧ c ≠ '"' ∧ c ≠ '\\' ∧ c ≠ '[' ∧ c ≠ ']'

instance (c : Char) : Decidable (plainChar c) := by
  unfold plainChar; infer_instance

/-! ## Association-list lookup over serialized objects -/

theorem lookup_cons_ne (k k' : String) (v : JVal) (rest : List (String × JVal))
    (h : (k == k') = false) :
    List.lookup k ((k', v) :: rest) = List.lookup k rest := by
  simp [List.lookup, h]

theorem lookup_cons_self (k : String) (v : JVal) (rest : List (String × JVal)) :
    List.lookup k ((k, v) :: rest) = some v := by
  simp [List.lookup]

theorem lookup_optField_ne (k k' : String) (v : Option JVal) (rest : List (String × JVal))
    (h : (k == k') = false) :
    List.lookup k (optField k' v ++ rest) = List.lookup k rest := by
  cases v <;> simp [optField, List.lookup, h]

theorem lookup_optField_self (k : String) (v : Option JVal) (rest : List (String × JVal))
    (h : List.lookup k rest = none) :
    List.lookup k (optField k v ++ rest) = v := by
  cases v <;> simp [optField, List.lookup, h]

theorem lookup_optField_last_ne (k k' : String) (v : Option JVal)
    (h : (k == k') = false) :
    List.lookup k (optField k' v) = none := by
  cases v <;> simp [optField, List.lookup, h]

theorem lookup_optField_last_self (k : String) (v : Option JVal) :
    List.lookup k (optField k v) = v := by
  cases v <;> simp [optField, List.lookup]

/-- C1: for every `Header` and every `Block`, an unset optional field
never appears as a key of the serialized object (its lookup is `none`)
and a set field appears with exactly its value; and `Header::new(1)`
serializes to exactly the thirteen-character string holding the single
member `version` with value `1`. -/
theorem c1_field_omission_and_exact_values (h : Header) (b : Block) :
    List.lookup "version" (headerFields h) = some (JVal.num h.version)
    ∧ List.lookup "click_events" (headerFields h) = h.click_events.map JVal.bool
    ∧ List.lookup "const_signal" (headerFields h) = h.const_signal.map JVal.num
    ∧ List.lookup "stop_signal" (headerFields h) = h.stop_signal.map JVal.num
    ∧ List.lookup "full_text" (blockFields b) = some (JVal.str b.full_text)
    ∧ List.lookup "short_text" (blockFields b) = b.short_text.map JVal.str
    ∧ List.lookup "name" (blockFields b) = b.name.map JVal.str
    ∧ List.lookup "color" (blockFields b) = b.color.map JVal.str
    ∧ List.lookup "background" (blockFields b) = b.background.map JVal.str
    ∧ List.lookup "border" (blockFields b) = b.border.map JVal.str
    ∧ List.lookup "border_top" (blockFields b) = b.border_top.map JVal.num
    ∧ List.lookup "border_right" (blockFields b) = b.border_right.map JVal.num
    ∧ List.lookup "border_bottom" (blockFields b) = b.border_bottom.map JVal.num
    ∧ List.lookup "border_left" (blockFields b) = b.border_left.map JVal.num
    ∧ List.lookup "min_width" (blockFields b) = b.min_width.map JVal.num
    ∧ List.lookup "align" (blockFields b) = b.align.map JVal.str
    ∧ List.lookup "instance" (blockFields b) = b.«instance».map JVal.str
    ∧ List.lookup "urgent" (blockFields b) = b.urgent.map JVal.bool
    ∧ List.lookup "seperator" (blockFields b) = b.seperator.map JVal.bool
    ∧ List.lookup "seperator_block_width" (blockFields b)
        = b.seperator_block_width.map JVal.bool
    ∧ List.lookup "markup" (blockFields b) = b.markup.map JVal.str
    ∧ headerToString (Header.new 1) = "\x7b\"version\":1\x7d" := by
  refine ⟨?_, ?_, ?_, ?_, ?_, ?_, ?_, ?_, ?_, ?_, ?_, ?_, ?_, ?_, ?_, ?_,
    ?_, ?_, ?_, ?_, ?_, ?_⟩
  all_goals first
    | decide
    | simp [headerFields, blockFields, lookup_cons_self, lookup_cons_ne,
        lookup_optField_ne, lookup_optField_self, lookup_optField_last_ne,
        lookup_optField_last_self]

/-- C2 (counter-evidence): the block `main` styles via the separator
mutator serializes the flag under the misspelled key `seperator`, not
under the key `separator` the spec's example output shows: the serialized
object has no `separator` member at all. -/
theorem c2_seperator_key_misspelled :
    List.lookup "separator" (blockFields (mainBlock "12:00:00  2024.01.01")) = none
    ∧ List.lookup "seperator" (blockFields (mainBlock "12:00:00  2024.01.01"))
        = some (JVal.bool true)
    ∧ blockToString (mainBlock "12:00:00  2024.01.01")
        = "\x7b\"full_text\":\"12:00:00  2024.01.01\",\"seperator\":true\x7d" := by
  refine ⟨?_, ?_, ?_⟩ <;> decide

/-- C6: `Block::new(full_text)` sets only `full_text` and leaves all
sixteen optional fields unset, and each mutator (`color`, `background`,
`with_seperator`) sets exactly its own field and leaves every other field
unchanged. -/
theorem c6_block_new_and_mutators_frame (ft c bg : String) (b : Block) :
    ((Block.new ft).full_text = ft
      ∧ (Block.new ft).short_text = none
      ∧ (Block.new ft).name = none
      ∧ (Block.new ft).color = none
      ∧ (Block.new ft).background = none
      ∧ (Block.new ft).border = none
      ∧ (Block.new ft).border_top = none
      ∧ (Block.new ft).border_right = none
      ∧ (Block.new ft).border_bottom = none
      ∧ (Block.new ft).border_left = none
      ∧ (Block.new ft).min_width = none
      ∧ (Block.new ft).align = none
      ∧ (Block.new ft).«instance» = none
      ∧ (Block.new ft).urgent = none
      ∧ (Block.new ft).seperator = none
      ∧ (Block.new ft).seperator_block_width = none
      ∧ (Block.new ft).markup = none)
    ∧ ((b.setColor c).color = some c
      ∧ (b.setColor c).full_text = b.full_text
      ∧ (b.setColor c).short_text = b.short_text
      ∧ (b.setColor c).name = b.name
      ∧ (b.setColor c).background = b.background
      ∧ (b.setColor c).border = b.border
      ∧ (b.setColor c).border_top = b.border_top
      ∧ (b.setColor c).border_right = b.border_right
      ∧ (b.setColor c).border_bottom = b.border_bottom
      ∧ (b.setColor c).border_left = b.border_left
      ∧ (b.setColor c).min_width = b.min_width
      ∧ (b.setColor c).align = b.align
      ∧ (b.setColor c).«instance» = b.«instance»
      ∧ (b.setColor c).urgent = b.urgent
      ∧ (b.setColor c).seperator = b.seperator
      ∧ (b.setColor c).seperator_block_width = b.seperator_block_width
      ∧ (b.setColor c).markup = b.markup)
    ∧ ((b.setBackground bg).background = some bg
      ∧ (b.setBackground bg).full_text = b.full_text
      ∧ (b.setBackground bg).short_text = b.short_text
      ∧ (b.setBackground bg).name = b.name
      ∧ (b.setBackground bg).color = b.color
      ∧ (b.setBackground bg).border = b.border
      ∧ (b.setBackground bg).border_top = b.border_top
      ∧ (b.setBackground bg).border_right = b.border_right
      ∧ (b.setBackground bg).border_bottom = b.border_bottom
      ∧ (b.setBackground bg).border_left = b.border_left
      ∧ (b.setBackground bg).min_width = b.min_width
      ∧ (b.setBackground bg).align = b.align
      ∧ (b.setBackground bg).«instance» = b.«instance»
      ∧ (b.setBackground bg).urgent = b.urgent
      ∧ (b.setBackground bg).seperator = b.seperator
      ∧ (b.setBackground bg).seperator_block_width = b.seperator_block_width
      ∧ (b.setBackground bg).markup = b.markup)
    ∧ (b.with_seperator.seperator = some true
      ∧ b.with_seperator.full_text = b.full_text
      ∧ b.with_seperator.short_text = b.short_text
      ∧ b.with_seperator.name = b.name
      ∧ b.with_seperator.color = b.color
      ∧ b.with_seperator.background = b.background
      ∧ b.with_seperator.border = b.border
      ∧ b.with_seperator.border_top = b.border_top
      ∧ b.with_seperator.border_right = b.border_right
      ∧ b.with_seperator.border_bottom = b.border_bottom
      ∧ b.with_seperator.border_left = b.border_left
      ∧ b.with_seperator.min_width = b.min_width
      ∧ b.with_seperator.align = b.align
      ∧ b.with_seperator.«instance» = b.«instance»
      ∧ b.with_seperator.urgent = b.urgent
      ∧ b.with_seperator.seperator_block_width = b.seperator_block_width
      ∧ b.with_seperator.markup = b.markup) := by
  refine ⟨?_, ?_, ?_, ?_⟩ <;>
    simp [Block.new, Block.setColor, Block.setBackground, Block.with_seperator]

/-! ## Newline-freedom of the serialized output (single-line framing) -/

theorem getD_mem_or_default (l : List Char) (d : Char) :
    ∀ n : Nat, l.getD n d ∈ l ∨ l.getD n d = d := by
  induction l with
  | nil => intro n; exact Or.inr (by cases n <;> rfl)
  | cons c cs ih =>
    intro n
    cases n with
    | zero => exact Or.inl (List.mem_cons_self c cs)
    | succ m =>
      rcases ih m with h | h
      · exact Or.inl (List.mem_cons_of_mem c h)
      · exact Or.inr h

theorem hexDigit16_ne_newline (n : Nat) : hexDigit16 n ≠ '\n' := by
  have hall : ∀ c ∈ hexDigits, c ≠ '\n' := by decide
  show hexDigits.getD n '0' ≠ '\n'
  rcases getD_mem_or_default hexDigits '0' n with h | h
  · exact hall _ h
  · rw [h]; decide

theorem escChar_ne_newline (c x : Char) (hx : x ∈ escChar c) : x ≠ '\n' := by
  unfold escChar at hx
  split_ifs at hx with h1 h2 h3 h4 h5 h6 h7 h8
  · simp [escPair] at hx
    rcases hx with rfl | rfl
    · decide
    · subst h1; decide
  · simp [escPair] at hx
    rcases hx with rfl | rfl
    · decide
    · subst h2; decide
  · simp [escPair] at hx; rcases hx with rfl | rfl <;> decide
  · simp [escPair] at hx; rcases hx with rfl | rfl <;> decide
  · simp [escPair] at hx; rcases hx with rfl | rfl <;> decide
  · simp [escPair] at hx; rcases hx with rfl | rfl <;> decide
  · simp [escPair] at hx; rcases hx with rfl | rfl <;> decide
  · simp [escPair] at hx
    rcases hx with rfl | rfl | rfl | rfl | rfl
    · decide
    · decide
    · decide
    · exact hexDigit16_ne_newline _
    · exact hexDigit16_ne_newline _
  · simp at hx
    subst hx
    exact h5

theorem escList_ne_newline (cs : List Char) (x : Char) (hx : x ∈ escList cs) :
    x ≠ '\n' := by
  induction cs with
  | nil => simp [escList] at hx
  | cons c cs ih =>
    simp only [escList, List.mem_append] at hx
    rcases hx with hx | hx
    · exact escChar_ne_newline c x hx
    · exact ih hx

theorem toDecimalAux_ne_newline (fuel n : Nat) (x : Char)
    (hx : x ∈ toDecimalAux fuel n) : x ≠ '\n' := by
  induction fuel generalizing n with
  | zero => simp [toDecimalAux] at hx
  | succ fuel ih =>
    unfold toDecimalAux at hx
    split_ifs at hx
    · simp at hx; subst hx; exact hexDigit16_ne_newline _
    · simp only [List.mem_append] at hx
      rcases hx with hx | hx
      · exact ih _ hx
      · simp at hx; subst hx; exact hexDigit16_ne_newline _

theorem printStrL_ne_newline (s : String) (x : Char) (hx : x ∈ printStrL s) :
    x ≠ '\n' := by
  simp only [printStrL, List.mem_cons, List.mem_append] at hx
  rcases hx with rfl | hx | hx
  · decide
  · exact escList_ne_newline _ _ hx
  · simp at hx; subst hx; decide

theorem printValL_ne_newline (v : JVal) (x : Char) (hx : x ∈ printValL v) :
    x ≠ '\n' := by
  match v with
  | .bool true => simp [printValL] at hx; rcases hx with rfl | rfl | rfl | rfl <;> decide
  | .bool false =>
    simp [printValL] at hx; rcases hx with rfl | rfl | rfl | rfl | rfl <;> decide
  | .num n => exact toDecimalAux_ne_newline _ _ _ hx
  | .str s => exact printStrL_ne_newline s x hx

theorem printFieldL_ne_newline (kv : String × JVal) (x : Char)
    (hx : x ∈ printFieldL kv) : x ≠ '\n' := by
  simp only [printFieldL, List.mem_append, List.mem_cons] at hx
  rcases hx with hx | rfl | hx
  · exact printStrL_ne_newline _ _ hx
  · decide
  · exact printValL_ne_newline _ _ hx

theorem mem_joinComma :
    ∀ (parts : List (List Char)) (x : Char), x ∈ joinComma parts →
      x = ',' ∨ ∃ p ∈ parts, x ∈ p
  | [], x, hx => absurd hx (List.not_mem_nil x)
  | [p], x, hx => Or.inr ⟨p, List.mem_singleton.mpr rfl, hx⟩
  | p :: q :: rest, x, hx => by
    simp only [joinComma, List.mem_append, List.mem_cons] at hx
    rcases hx with hx | rfl | hx
    · exact Or.inr ⟨p, List.mem_cons_self p _, hx⟩
    · exact Or.inl rfl
    · rcases mem_joinComma (q :: rest) x hx with h | ⟨p', hp', hx'⟩
      · exact Or.inl h
      · exact Or.inr ⟨p', List.mem_cons_of_mem p hp', hx'⟩

theorem printObjL_ne_newline (fields : List (String × JVal)) :
    '\n' ∉ (printObjL fields).data := by
  intro hmem
  simp only [printObjL, String.data, List.mem_cons, List.mem_append] at hmem
  rcases hmem with h | h | h
  · exact absurd h (by decide)
  · rcases mem_joinComma _ _ h with h' | ⟨p, hp, hx⟩
    · exact absurd h' (by decide)
    · rcases List.mem_map.mp hp with ⟨kv, _, rfl⟩
      exact printFieldL_ne_newline kv _ hx rfl
  · simp at h

/-- C9: serialization is total on every representable `Header` and
`Block` value (in the embedding `headerToString`/`blockToString` are
total Lean functions — the error branch behind the `to_string` unwraps
has no counterpart), and the produced string never contains an embedded
newline character, even when `full_text` or any other string field
contains newlines: serde escapes them to the two characters `\` `n`. -/
theorem c9_serialization_single_line (h : Header) (b : Block) :
    '\n' ∉ (headerToString h).data ∧ '\n' ∉ (blockToString b).data :=
  ⟨printObjL_ne_newline (headerFields h), printObjL_ne_newline (blockFields b)⟩

/-! ## Behaviour of the streaming loop -/

theorem runFrom_no_fail (texts : Nat → String) :
    ∀ (n i : Nat) (d : List Char),
      ∃ d' : List Char,
        runFrom texts i n ⟨d, false⟩
          = ((snapshots texts i n).flatten, ⟨d', false⟩, false) := by
  intro n
  induction n with
  | zero => intro i d; exact ⟨d, rfl⟩
  | succ n ih =>
    intro i d
    obtain ⟨d', hd'⟩ := ih (i + 1) (takeToBrace d).2
    refine ⟨d', ?_⟩
    simp only [runFrom, stepTick, readUntilBrace, Bool.false_eq_true, if_false, hd',
      snapshots, List.range'_succ, List.map_cons, List.flatten_cons]

theorem fragChars_no_newline (s : String) : '\n' ∉ fragChars s := by
  intro hmem
  simp only [fragChars, List.mem_cons, List.mem_append] at hmem
  rcases hmem with h | h | h
  · exact absurd h (by decide)
  · exact printObjL_ne_newline (blockFields (mainBlock s)) h
  · simp at h

theorem runFrom_no_newline (texts : Nat → String) :
    ∀ (n i : Nat) (st : Stdin), '\n' ∉ (runFrom texts i n st).1 := by
  intro n
  induction n with
  | zero => intro i st hmem; simp [runFrom] at hmem
  | succ n ih =>
    intro i st hmem
    simp only [runFrom] at hmem
    rcases hst : stepTick texts i st with ⟨o, st', p⟩
    have ho : o = fragChars (texts i) := by
      unfold stepTick at hst
      rcases hr : readUntilBrace st with _ | pr
      · rw [hr] at hst; exact (Prod.mk.injEq .. ▸ hst).1.symm ▸ rfl
      · rw [hr] at hst
        rcases pr with ⟨a, b⟩
        exact ((Prod.mk.injEq ..).mp hst).1.symm
    rw [hst] at hmem
    by_cases hp : p = true
    · rw [hp] at hmem
      simp only [if_true] at hmem
      exact fragChars_no_newline (texts i) (ho ▸ hmem)
    · rw [Bool.not_eq_true] at hp
      rw [hp] at hmem
      simp only [Bool.false_eq_true, if_false, List.mem_append] at hmem
      rcases hmem with h | h
      · exact fragChars_no_newline (texts i) (ho ▸ h)
      · exact ih (i + 1) st' h

theorem headerString_no_newline : '\n' ∉ (headerToString (Header.new 1)).data :=
  printObjL_ne_newline (headerFields (Header.new 1))

/-- C4: every run writes the header exactly once and strictly before any
array element: the bytes written are exactly the header JSON, a newline,
the array-open token `[`, and then the loop's output; the header is the
thirteen-byte object with the single `version` member; the newline after
it is the only newline ever written, so the header line cannot recur. -/
theorem c4_header_written_once_first (texts : Nat → String) (n : Nat)
    (d : List Char) (fl : Bool) :
    (runMain texts n ⟨d, fl⟩).1
        = (headerToString (Header.new 1)).data
            ++ ('\n' :: ('[' :: (runFrom texts 0 n ⟨d, fl⟩).1))
    ∧ headerToString (Header.new 1) = "\x7b\"version\":1\x7d"
    ∧ (runMain texts n ⟨d, fl⟩).1.count '\n' = 1 := by
  refine ⟨?_, by decide, ?_⟩
  · simp [runMain, initOutput]
  · have hb : '\n' ∉ (runFrom texts 0 n ⟨d, fl⟩).1 :=
      runFrom_no_newline texts n 0 ⟨d, fl⟩
    have hh : '\n' ∉ (headerToString (Header.new 1)).data := headerString_no_newline
    simp [runMain, initOutput, List.count_append, List.count_cons,
      List.count_eq_zero.mpr hb, List.count_eq_zero.mpr hh]

/-- C3 (counterexample): a read failure on the input stream is fatal, not
skipped.  With an input stream whose first read fails, running two loop
iterations panics (`unwrap` on the `read_until` result) and emits only the
first snapshot: emission does not continue past the failed read, refuting
the claim that any read failure is non-fatal and the engine keeps
emitting snapshots. -/
theorem c3_read_failure_is_fatal :
    (runMain (fun _ => "A") 2 ⟨[], true⟩).2.2 = true
    ∧ (runMain (fun _ => "A") 2 ⟨[], true⟩).1 = initOutput ++ fragChars "A" := by
  refine ⟨?_, ?_⟩ <;> decide

/-- C3 (amended): on an input stream that never returns a read error —
whatever bytes it holds, including none at all (end-of-stream) — the loop
never stops: the bytes are discarded without being decoded, `read_until`
returns normally at EOF, and after `n` iterations all `n` snapshots have
been emitted.  Only an IO read error (see the counterexample) aborts. -/
theorem c3_malformed_input_and_eof_nonfatal (texts : Nat → String) (n : Nat)
    (d : List Char) :
    (runMain texts n ⟨d, false⟩).2.2 = false
    ∧ (runMain texts n ⟨d, false⟩).1
        = initOutput ++ (snapshots texts 0 n).flatten := by
  obtain ⟨d', hd'⟩ := runFrom_no_fail texts n 0 d
  constructor
  · simp [runMain, hd']
  · simp [runMain, hd']

/-! ## Bracket counting: the outer array is never closed -/

theorem escChar_plain (c : Char) (h : plainChar c) : escChar c = [c] := by
  obtain ⟨hge, hq, hbs, _, _⟩ := h
  unfold escChar
  split_ifs
  all_goals first
    | rfl
    | omega
    | (subst_vars; exact absurd rfl hq)
    | (subst_vars; exact absurd rfl hbs)
    | (subst_vars; exact absurd hge (by decide))

theorem escList_plain (l : List Char) (h : ∀ c ∈ l, plainChar c) :
    escList l = l := by
  induction l with
  | nil => rfl
  | cons c cs ih =>
    simp only [escList, escChar_plain c (h c (List.mem_cons_self c cs)),
      ih fun x hx => h x (List.mem_cons_of_mem c hx), List.singleton_append]

theorem mem_printStrL (s : String) (x : Char) (hx : x ∈ printStrL s) :
    x = '"' ∨ x ∈ escList s.data := by
  simp only [printStrL, List.mem_cons, List.mem_append] at hx
  rcases hx with rfl | hx | hx
  · exact Or.inl rfl
  · exact Or.inr hx
  · simp at hx; subst hx; exact Or.inl rfl

theorem mem_printFieldL (kv : String × JVal) (x : Char) (hx : x ∈ printFieldL kv) :
    x ∈ printStrL kv.1 ∨ x = ':' ∨ x ∈ printValL kv.2 := by
  simp only [printFieldL, List.mem_append, List.mem_cons] at hx
  rcases hx with hx | rfl | hx
  · exact Or.inl hx
  · exact Or.inr (Or.inl rfl)
  · exact Or.inr (Or.inr hx)

theorem mem_printObjL (fields : List (String × JVal)) (x : Char)
    (hx : x ∈ (printObjL fields).data) :
    x = '\x7b' ∨ x = '\x7d' ∨ x = ',' ∨ ∃ kv ∈ fields, x ∈ printFieldL kv := by
  simp only [printObjL, String.data, List.mem_cons, List.mem_append] at hx
  rcases hx with rfl | hx | hx
  · exact Or.inl rfl
  · rcases mem_joinComma _ _ hx with h' | ⟨p, hp, hx'⟩
    · exact Or.inr (Or.inr (Or.inl h'))
    · rcases List.mem_map.mp hp with ⟨kv, hkv, rfl⟩
      exact Or.inr (Or.inr (Or.inr ⟨kv, hkv, hx'⟩))
  · simp at hx; subst hx; exact Or.inr (Or.inl rfl)

/-- The two members of the object serialized for the block `main` emits. -/
theorem blockFields_mainBlock (s : String) :
    blockFields (mainBlock s)
      = [("full_text", JVal.str s), ("seperator", JVal.bool true)] := rfl

theorem not_bracket_mainBlock (s : String) (hs : ∀ c ∈ s.data, plainChar c)
    (x : Char) (hx : x = '[' ∨ x = ']') :
    x ∉ (blockToString (mainBlock s)).data := by
  intro hmem
  rcases mem_printObjL _ _ hmem with h | h | h | ⟨kv, hkv, hin⟩
  · rcases hx with rfl | rfl <;> simp at h
  · rcases hx with rfl | rfl <;> simp at h
  · rcases hx with rfl | rfl <;> simp at h
  · rw [blockFields_mainBlock] at hkv
    simp only [List.mem_cons, List.not_mem_nil, or_false] at hkv
    rcases hkv with rfl | rfl
    · rcases mem_printFieldL _ _ hin with hk | rfl | hv
      · rcases mem_printStrL _ _ hk with rfl | hesc
        · rcases hx with h | h <;> exact absurd h (by decide)
        · have : ∀ y ∈ escList ("full_text").data, y ≠ '[' ∧ y ≠ ']' := by decide
          rcases hx with rfl | rfl
          · exact (this _ hesc).1 rfl
          · exact (this _ hesc).2 rfl
      · rcases hx with h | h <;> exact absurd h (by decide)
      · rcases mem_printStrL _ _ hv with rfl | hesc
        · rcases hx with h | h <;> exact absurd h (by decide)
        · rw [escList_plain s.data hs] at hesc
          obtain ⟨_, _, _, hlb, hrb⟩ := hs x hesc
          rcases hx with rfl | rfl
          · exact hlb rfl
          · exact hrb rfl
    · rcases mem_printFieldL _ _ hin with hk | rfl | hv
      · rcases mem_printStrL _ _ hk with rfl | hesc
        · rcases hx with h | h <;> exact absurd h (by decide)
        · have : ∀ y ∈ escList ("seperator").data, y ≠ '[' ∧ y ≠ ']' := by decide
          rcases hx with rfl | rfl
          · exact (this _ hesc).1 rfl
          · exact (this _ hesc).2 rfl
      · rcases hx with h | h <;> exact absurd h (by decide)
      · have : ∀ y ∈ printValL (JVal.bool true), y ≠ '[' ∧ y ≠ ']' := by decide
        rcases hx with rfl | rfl
        · exact (this _ hv).1 rfl
        · exact (this _ hv).2 rfl

theorem fragChars_counts (s : String) (hs : ∀ c ∈ s.data, plainChar c) :
    (fragChars s).count ']' = 1 ∧ (fragChars s).count '[' = 1 := by
  have h1 : (blockToString (mainBlock s)).data.count ']' = 0 :=
    List.count_eq_zero.mpr (not_bracket_mainBlock s hs ']' (Or.inr rfl))
  have h2 : (blockToString (mainBlock s)).data.count '[' = 0 :=
    List.count_eq_zero.mpr (not_bracket_mainBlock s hs '[' (Or.inl rfl))
  constructor <;>
    simp [fragChars, List.count_append, List.count_cons, h1, h2]

theorem initOutput_counts :
    initOutput.count ']' = 0 ∧ initOutput.count '[' = 1 := by decide

theorem flatten_snapshots_counts (texts : Nat → String)
    (htexts : ∀ j, ∀ c ∈ (texts j).data, plainChar c) :
    ∀ n i, ((snapshots texts i n).flatten.count ']' = n
      ∧ (snapshots texts i n).flatten.count '[' = n) := by
  intro n
  induction n with
  | zero => intro i; constructor <;> rfl
  | succ n ih =>
    intro i
    obtain ⟨ihr, ihl⟩ := ih (i + 1)
    obtain ⟨hr, hl⟩ := fragChars_counts (texts i) (htexts i)
    simp only [snapshots, List.range'_succ, List.map_cons, List.flatten_cons,
      List.count_append] at ihr ihl ⊢
    constructor <;> omega

/-- C5: after `n` iterations of the loop (on a healthy input stream, with
content texts made of plain characters, as the clock source's are), the
bytes after the prelude are exactly the `n` snapshot fragments in order —
each of the form `[` block-object `],` with the comma appended, so every
element after the first is preceded by a comma — and the outer array is
never closed: the output holds exactly `n` closing brackets (all of them
the inner closes of the `n` fragments) against `n + 1` opening brackets,
leaving the outer `[` forever unmatched. -/
theorem c5_n_fragments_outer_array_never_closed (texts : Nat → String)
    (n : Nat) (d : List Char)
    (htexts : ∀ j, ∀ c ∈ (texts j).data, plainChar c) :
    (runMain texts n ⟨d, false⟩).1 = initOutput ++ (snapshots texts 0 n).flatten
    ∧ (snapshots texts 0 n).length = n
    ∧ (∀ j, j < n → (snapshots texts 0 n).getD j []
        = '[' :: ((blockToString (mainBlock (texts j))).data ++ [']', ',']))
    ∧ (runMain texts n ⟨d, false⟩).1.count ']' = n
    ∧ (runMain texts n ⟨d, false⟩).1.count '[' = n + 1 := by
  obtain ⟨d', hd'⟩ := runFrom_no_fail texts n 0 d
  obtain ⟨hcr, hcl⟩ := flatten_snapshots_counts texts htexts n 0
  obtain ⟨hir, hil⟩ := initOutput_counts
  refine ⟨by simp [runMain, hd'], by simp [snapshots], ?_, ?_, ?_⟩
  · intro j hj
    have : (snapshots texts 0 n).getD j [] = fragChars (texts j) := by
      simp only [snapshots]
      rw [List.getD_eq_getElem?_getD, List.getElem?_map]
      simp [List.getElem?_range', hj]
    rw [this]; rfl
  · simp [runMain, hd', List.count_append, hcr, hir]
  · simp [runMain, hd', List.count_append, hcl, hil, Nat.add_comm]

/-- C5 witness: two ticks of a content source producing the plain text
`A` against an empty (EOF) input stream. -/
theorem c5_n_fragments_outer_array_never_closed_witness :
    (runMain (fun _ => "A") 2 ⟨[], false⟩).1
        = initOutput ++ (snapshots (fun _ => "A") 0 2).flatten
    ∧ (snapshots (fun _ => "A") 0 2).length = 2
    ∧ (∀ j, j < 2 → (snapshots (fun _ => "A") 0 2).getD j []
        = '[' :: ((blockToString (mainBlock ((fun _ => "A") j))).data ++ [']', ',']))
    ∧ (runMain (fun _ => "A") 2 ⟨[], false⟩).1.count ']' = 2
    ∧ (runMain (fun _ => "A") 2 ⟨[], false⟩).1.count '[' = 2 + 1 :=
  c5_n_fragments_outer_array_never_closed (fun _ => "A") 2 []
    (fun _ => show ∀ c ∈ ("A" : String).data, plainChar c by decide)

theorem takeToBrace_finds (pre post : List Char) (h : '\x7d' ∉ pre) :
    takeToBrace (pre ++ '\x7d' :: post) = (pre ++ ['\x7d'], post) := by
  induction pre with
  | nil => simp [takeToBrace]
  | cons c cs ih =>
    have hc : c ≠ '\x7d' := fun hc => h (hc ▸ List.mem_cons_self c cs)
    have hcs : '\x7d' ∉ cs := fun hm => h (List.mem_cons_of_mem c hm)
    simp [takeToBrace, hc, ih hcs]

theorem takeToBrace_eof (d : List Char) (h : '\x7d' ∉ d) :
    takeToBrace d = (d, []) := by
  induction d with
  | nil => rfl
  | cons c cs ih =>
    have hc : c ≠ '\x7d' := fun hc => h (hc ▸ List.mem_cons_self c cs)
    have hcs : '\x7d' ∉ cs := fun hm => h (List.mem_cons_of_mem c hm)
    simp [takeToBrace, hc, ih hcs]

/-- C10: every loop iteration reads the input stream up to and including
the first closing-brace byte (all of it when no brace remains before
EOF), and the bytes are discarded without being decoded: the emitted
output is identical whatever the input stream holds.  This read happens
although the header `main` writes leaves `click_events` unset, so the
emitted header never requested click read-back. -/
theorem c10_reads_to_brace_discards_bytes (texts : Nat → String) (n : Nat)
    (d₁ d₂ pre post : List Char)
    (h₁ : '\x7d' ∉ pre) (h₂ : '\x7d' ∉ post) :
    (runMain texts n ⟨d₁, false⟩).1 = (runMain texts n ⟨d₂, false⟩).1
    ∧ readUntilBrace ⟨pre ++ '\x7d' :: post, false⟩
        = some (pre ++ ['\x7d'], ⟨post, false⟩)
    ∧ readUntilBrace ⟨post, false⟩ = some (post, ⟨[], false⟩)
    ∧ (Header.new 1).click_events = none := by
  obtain ⟨d₁', hd₁⟩ := runFrom_no_fail texts n 0 d₁
  obtain ⟨d₂', hd₂⟩ := runFrom_no_fail texts n 0 d₂
  refine ⟨?_, ?_, ?_, rfl⟩
  · simp [runMain, hd₁, hd₂]
  · simp [readUntilBrace, takeToBrace_finds pre post h₁]
  · simp [readUntilBrace, takeToBrace_eof post h₂]

/-- C10 witness: one tick; the first stream holds one brace-terminated
message plus a trailing byte, the second is empty. -/
theorem c10_reads_to_brace_discards_bytes_witness :
    (runMain (fun _ => "A") 1 ⟨['a', '\x7d', 'z'], false⟩).1
        = (runMain (fun _ => "A") 1 ⟨[], false⟩).1
    ∧ readUntilBrace ⟨['a'] ++ '\x7d' :: ['z'], false⟩
        = some (['a'] ++ ['\x7d'], ⟨['z'], false⟩)
    ∧ readUntilBrace ⟨['z'], false⟩ = some (['z'], ⟨[], false⟩)
    ∧ (Header.new 1).click_events = none :=
  c10_reads_to_brace_discards_bytes (fun _ => "A") 1 ['a', '\x7d', 'z'] []
    ['a'] ['z'] (by decide) (by decide)

/-! ## ClientEvent deserialization: required fields, unknown fields,
round-trip -/

theorem putStr_ok (cur v upd acc') (h : putStr cur v upd = .ok acc') :
    cur = none ∧ ∃ s, v = .str s ∧ acc' = upd s := by
  cases cur with
  | some _ => simp [putStr] at h
  | none =>
    cases v with
    | str s => exact ⟨rfl, s, rfl, by simpa [putStr] using h.symm⟩
    | bool b => simp [putStr] at h
    | num n => simp [putStr] at h

theorem putU32_ok (cur v upd acc') (h : putU32 cur v upd = .ok acc') :
    cur = none ∧ ∃ n, v = .num n ∧ n < u32Bound ∧ acc' = upd n := by
  cases cur with
  | some _ => simp [putU32] at h
  | none =>
    cases v with
    | num n =>
      by_cases hb : n < u32Bound
      · refine ⟨rfl, n, rfl, hb, ?_⟩
        simpa [putU32, hb] using h.symm
      · simp [putU32, hb] at h
    | bool b => simp [putU32] at h
    | str s => simp [putU32] at h

theorem stepCE_key_name (acc : CEAcc) (v : JVal) :
    stepCE acc ("name", v)
      = putStr acc.name v fun s => { acc with name := some s } := by
  simp [stepCE]

theorem stepCE_key_instance (acc : CEAcc) (v : JVal) :
    stepCE acc ("instance", v)
      = putStr acc.«instance» v fun s => { acc with «instance» := some s } := by
  simp [stepCE]

theorem stepCE_key_x (acc : CEAcc) (v : JVal) :
    stepCE acc ("x", v)
      = putU32 acc.x v fun n => { acc with x := some n } := by
  simp [stepCE]

theorem stepCE_key_y (acc : CEAcc) (v : JVal) :
    stepCE acc ("y", v)
      = putU32 acc.y v fun n => { acc with y := some n } := by
  simp [stepCE]

theorem stepCE_key_button (acc : CEAcc) (v : JVal) :
    stepCE acc ("button", v)
      = putU32 acc.button v fun n => { acc with button := some n } := by
  simp [stepCE]

theorem stepCE_key_event (acc : CEAcc) (v : JVal) :
    stepCE acc ("event", v)
      = putU32 acc.event v fun n => { acc with event := some n } := by
  simp [stepCE]

theorem stepCE_key_relative_x (acc : CEAcc) (v : JVal) :
    stepCE acc ("relative_x", v)
      = putU32 acc.relative_x v fun n => { acc with relative_x := some n } := by
  simp [stepCE]

theorem stepCE_key_relative_y (acc : CEAcc) (v : JVal) :
    stepCE acc ("relative_y", v)
      = putU32 acc.relative_y v fun n => { acc with relative_y := some n } := by
  simp [stepCE]

theorem stepCE_key_width (acc : CEAcc) (v : JVal) :
    stepCE acc ("width", v)
      = putU32 acc.width v fun n => { acc with width := some n } := by
  simp [stepCE]

theorem stepCE_key_height (acc : CEAcc) (v : JVal) :
    stepCE acc ("height", v)
      = putU32 acc.height v fun n => { acc with height := some n } := by
  simp [stepCE]

theorem stepCE_unknown (acc : CEAcc) (kk : String) (v : JVal)
    (h1 : kk ≠ "name") (h2 : kk ≠ "instance") (h3 : kk ≠ "x") (h4 : kk ≠ "y") (h5 : kk ≠ "button") (h6 : kk ≠ "event") (h7 : kk ≠ "relative_x") (h8 : kk ≠ "relative_y") (h9 : kk ≠ "width") (h10 : kk ≠ "height") :
    stepCE acc (kk, v) = .ok acc := by
  simp only [stepCE]
  rw [if_neg (by simp [h1]), if_neg (by simp [h2]), if_neg (by simp [h3]),
    if_neg (by simp [h4]), if_neg (by simp [h5]), if_neg (by simp [h6]),
    if_neg (by simp [h7]), if_neg (by simp [h8]), if_neg (by simp [h9]),
    if_neg (by simp [h10])]

theorem stepCE_sets (acc a2 : CEAcc) (kk : String) (v : JVal)
    (h : stepCE acc (kk, v) = .ok a2) :
    (a2.name = acc.name ∨ kk = "name")
    ∧ (a2.«instance» = acc.«instance» ∨ kk = "instance")
    ∧ (a2.x = acc.x ∨ kk = "x")
    ∧ (a2.y = acc.y ∨ kk = "y")
    ∧ (a2.button = acc.button ∨ kk = "button")
    ∧ (a2.event = acc.event ∨ kk = "event")
    ∧ (a2.relative_x = acc.relative_x ∨ kk = "relative_x")
    ∧ (a2.relative_y = acc.relative_y ∨ kk = "relative_y")
    ∧ (a2.width = acc.width ∨ kk = "width")
    ∧ (a2.height = acc.height ∨ kk = "height") := by
  by_cases h1 : kk = "name"
  · subst h1
    rw [stepCE_key_name] at h
    obtain ⟨hcur, s, hv, rfl⟩ := putStr_ok _ _ _ _ h
    exact ⟨Or.inr rfl, Or.inl rfl, Or.inl rfl, Or.inl rfl, Or.inl rfl, Or.inl rfl, Or.inl rfl, Or.inl rfl, Or.inl rfl, Or.inl rfl⟩
  by_cases h2 : kk = "instance"
  · subst h2
    rw [stepCE_key_instance] at h
    obtain ⟨hcur, s, hv, rfl⟩ := putStr_ok _ _ _ _ h
    exact ⟨Or.inl rfl, Or.inr rfl, Or.inl rfl, Or.inl rfl, Or.inl rfl, Or.inl rfl, Or.inl rfl, Or.inl rfl, Or.inl rfl, Or.inl rfl⟩
  by_cases h3 : kk = "x"
  · subst h3
    rw [stepCE_key_x] at h
    obtain ⟨hcur, n, hv, hb, rfl⟩ := putU32_ok _ _ _ _ h
    exact ⟨Or.inl rfl, Or.inl rfl, Or.inr rfl, Or.inl rfl, Or.inl rfl, Or.inl rfl, Or.inl rfl, Or.inl rfl, Or.inl rfl, Or.inl rfl⟩
  by_cases h4 : kk = "y"
  · subst h4
    rw [stepCE_key_y] at h
    obtain ⟨hcur, n, hv, hb, rfl⟩ := putU32_ok _ _ _ _ h
    exact ⟨Or.inl rfl, Or.inl rfl, Or.inl rfl, Or.inr rfl, Or.inl rfl, Or.inl rfl, Or.inl rfl, Or.inl rfl, Or.inl rfl, Or.inl rfl⟩
  by_cases h5 : kk = "button"
  · subst h5
    rw [stepCE_key_button] at h
    obtain ⟨hcur, n, hv, hb, rfl⟩ := putU32_ok _ _ _ _ h
    exact ⟨Or.inl rfl, Or.inl rfl, Or.inl rfl, Or.inl rfl, Or.inr rfl, Or.inl rfl, Or.inl rfl, Or.inl rfl, Or.inl rfl, Or.inl rfl⟩
  by_cases h6 : kk = "event"
  · subst h6
    rw [stepCE_key_event] at h
    obtain ⟨hcur, n, hv, hb, rfl⟩ := putU32_ok _ _ _ _ h
    exact ⟨Or.inl rfl, Or.inl rfl, Or.inl rfl, Or.inl rfl, Or.inl rfl, Or.inr rfl, Or.inl rfl, Or.inl rfl, Or.inl rfl, Or.inl rfl⟩
  by_cases h7 : kk = "relative_x"
  · subst h7
    rw [stepCE_key_relative_x] at h
    obtain ⟨hcur, n, hv, hb, rfl⟩ := putU32_ok _ _ _ _ h
    exact ⟨Or.inl rfl, Or.inl rfl, Or.inl rfl, Or.inl rfl, Or.inl rfl, Or.inl rfl, Or.inr rfl, Or.inl rfl, Or.inl rfl, Or.inl rfl⟩
  by_cases h8 : kk = "relative_y"
  · subst h8
    rw [stepCE_key_relative_y] at h
    obtain ⟨hcur, n, hv, hb, rfl⟩ := putU32_ok _ _ _ _ h
    exact ⟨Or.inl rfl, Or.inl rfl, Or.inl rfl, Or.inl rfl, Or.inl rfl, Or.inl rfl, Or.inl rfl, Or.inr rfl, Or.inl rfl, Or.inl rfl⟩
  by_cases h9 : kk = "width"
  · subst h9
    rw [stepCE_key_width] at h
    obtain ⟨hcur, n, hv, hb, rfl⟩ := putU32_ok _ _ _ _ h
    exact ⟨Or.inl rfl, Or.inl rfl, Or.inl rfl, Or.inl rfl, Or.inl rfl, Or.inl rfl, Or.inl rfl, Or.inl rfl, Or.inr rfl, Or.inl rfl⟩
  by_cases h10 : kk = "height"
  · subst h10
    rw [stepCE_key_height] at h
    obtain ⟨hcur, n, hv, hb, rfl⟩ := putU32_ok _ _ _ _ h
    exact ⟨Or.inl rfl, Or.inl rfl, Or.inl rfl, Or.inl rfl, Or.inl rfl, Or.inl rfl, Or.inl rfl, Or.inl rfl, Or.inl rfl, Or.inr rfl⟩
  rw [stepCE_unknown acc kk v h1 h2 h3 h4 h5 h6 h7 h8 h9 h10] at h
  simp only [Except.ok.injEq] at h
  subst h
  exact ⟨Or.inl rfl, Or.inl rfl, Or.inl rfl, Or.inl rfl, Or.inl rfl, Or.inl rfl, Or.inl rfl, Or.inl rfl, Or.inl rfl, Or.inl rfl⟩

theorem walkCE_tracks (fields : List (String × JVal)) : ∀ acc a2 : CEAcc,
    walkCE acc fields = .ok a2 →
    (a2.name.isSome = true → acc.name.isSome = true ∨ "name" ∈ fields.map Prod.fst)
    ∧ (a2.«instance».isSome = true → acc.«instance».isSome = true ∨ "instance" ∈ fields.map Prod.fst)
    ∧ (a2.x.isSome = true → acc.x.isSome = true ∨ "x" ∈ fields.map Prod.fst)
    ∧ (a2.y.isSome = true → acc.y.isSome = true ∨ "y" ∈ fields.map Prod.fst)
    ∧ (a2.button.isSome = true → acc.button.isSome = true ∨ "button" ∈ fields.map Prod.fst)
    ∧ (a2.event.isSome = true → acc.event.isSome = true ∨ "event" ∈ fields.map Prod.fst)
    ∧ (a2.relative_x.isSome = true → acc.relative_x.isSome = true ∨ "relative_x" ∈ fields.map Prod.fst)
    ∧ (a2.relative_y.isSome = true → acc.relative_y.isSome = true ∨ "relative_y" ∈ fields.map Prod.fst)
    ∧ (a2.width.isSome = true → acc.width.isSome = true ∨ "width" ∈ fields.map Prod.fst)
    ∧ (a2.height.isSome = true → acc.height.isSome = true ∨ "height" ∈ fields.map Prod.fst) := by
  induction fields with
  | nil =>
    intro acc a2 hw
    simp only [walkCE, Except.ok.injEq] at hw
    subst hw
    exact ⟨fun h => Or.inl h, fun h => Or.inl h, fun h => Or.inl h, fun h => Or.inl h, fun h => Or.inl h, fun h => Or.inl h, fun h => Or.inl h, fun h => Or.inl h, fun h => Or.inl h, fun h => Or.inl h⟩
  | cons kv rest ih =>
    intro acc a2 hw
    unfold walkCE at hw
    cases hstep : stepCE acc kv with
    | error e => rw [hstep] at hw; exact absurd hw (by simp)
    | ok acc₁ =>
      rw [hstep] at hw
      obtain ⟨kk, v⟩ := kv
      obtain ⟨t1, t2, t3, t4, t5, t6, t7, t8, t9, t10⟩ := stepCE_sets acc acc₁ kk v hstep
      obtain ⟨i1, i2, i3, i4, i5, i6, i7, i8, i9, i10⟩ := ih acc₁ a2 hw
      refine ⟨?_, ?_, ?_, ?_, ?_, ?_, ?_, ?_, ?_, ?_⟩
      · intro hsome
        simp only [List.map_cons]
        rcases i1 hsome with h' | h'
        · rcases t1 with ht | ht
          · exact Or.inl (by rw [← ht]; exact h')
          · exact Or.inr (List.mem_cons.mpr (Or.inl ht.symm))
        · exact Or.inr (List.mem_cons_of_mem kk h')
      · intro hsome
        simp only [List.map_cons]
        rcases i2 hsome with h' | h'
        · rcases t2 with ht | ht
          · exact Or.inl (by rw [← ht]; exact h')
          · exact Or.inr (List.mem_cons.mpr (Or.inl ht.symm))
        · exact Or.inr (List.mem_cons_of_mem kk h')
      · intro hsome
        simp only [List.map_cons]
        rcases i3 hsome with h' | h'
        · rcases t3 with ht | ht
          · exact Or.inl (by rw [← ht]; exact h')
          · exact Or.inr (List.mem_cons.mpr (Or.inl ht.symm))
        · exact Or.inr (List.mem_cons_of_mem kk h')
      · intro hsome
        simp only [List.map_cons]
        rcases i4 hsome with h' | h'
        · rcases t4 with ht | ht
          · exact Or.inl (by rw [← ht]; exact h')
          · exact Or.inr (List.mem_cons.mpr (Or.inl ht.symm))
        · exact Or.inr (List.mem_cons_of_mem kk h')
      · intro hsome
        simp only [List.map_cons]
        rcases i5 hsome with h' | h'
        · rcases t5 with ht | ht
          · exact Or.inl (by rw [← ht]; exact h')
          · exact Or.inr (List.mem_cons.mpr (Or.inl ht.symm))
        · exact Or.inr (List.mem_cons_of_mem kk h')
      · intro hsome
        simp only [List.map_cons]
        rcases i6 hsome with h' | h'
        · rcases t6 with ht | ht
          · exact Or.inl (by rw [← ht]; exact h')
          · exact Or.inr (List.mem_cons.mpr (Or.inl ht.symm))
        · exact Or.inr (List.mem_cons_of_mem kk h')
      · intro hsome
        simp only [List.map_cons]
        rcases i7 hsome with h' | h'
        · rcases t7 with ht | ht
          · exact Or.inl (by rw [← ht]; exact h')
          · exact Or.inr (List.mem_cons.mpr (Or.inl ht.symm))
        · exact Or.inr (List.mem_cons_of_mem kk h')
      · intro hsome
        simp only [List.map_cons]
        rcases i8 hsome with h' | h'
        · rcases t8 with ht | ht
          · exact Or.inl (by rw [← ht]; exact h')
          · exact Or.inr (List.mem_cons.mpr (Or.inl ht.symm))
        · exact Or.inr (List.mem_cons_of_mem kk h')
      · intro hsome
        simp only [List.map_cons]
        rcases i9 hsome with h' | h'
        · rcases t9 with ht | ht
          · exact Or.inl (by rw [← ht]; exact h')
          · exact Or.inr (List.mem_cons.mpr (Or.inl ht.symm))
        · exact Or.inr (List.mem_cons_of_mem kk h')
      · intro hsome
        simp only [List.map_cons]
        rcases i10 hsome with h' | h'
        · rcases t10 with ht | ht
          · exact Or.inl (by rw [← ht]; exact h')
          · exact Or.inr (List.mem_cons.mpr (Or.inl ht.symm))
        · exact Or.inr (List.mem_cons_of_mem kk h')

theorem finishCE_ok_isSome (acc : CEAcc) (e : ClientEvent)
    (h : finishCE acc = .ok e) :
    acc.name.isSome = true ∧ acc.«instance».isSome = true ∧ acc.x.isSome = true ∧ acc.y.isSome = true ∧ acc.button.isSome = true ∧ acc.event.isSome = true ∧ acc.relative_x.isSome = true ∧ acc.relative_y.isSome = true ∧ acc.width.isSome = true ∧ acc.height.isSome = true := by
  unfold finishCE at h
  split at h
  · simp_all
  · exact absurd h (by simp)

theorem decode_ok_keys (fields : List (String × JVal)) (e : ClientEvent)
    (h : decodeClientEvent fields = .ok e) :
    ∀ k ∈ ceRequiredKeys, k ∈ fields.map Prod.fst := by
  unfold decodeClientEvent at h
  cases hw : walkCE initCE fields with
  | error e' => rw [hw] at h; exact absurd h (by simp)
  | ok acc =>
    rw [hw] at h
    obtain ⟨f1, f2, f3, f4, f5, f6, f7, f8, f9, f10⟩ := finishCE_ok_isSome acc e h
    obtain ⟨t1, t2, t3, t4, t5, t6, t7, t8, t9, t10⟩ := walkCE_tracks fields initCE acc hw
    intro k hk
    simp only [ceRequiredKeys, List.mem_cons, List.not_mem_nil, or_false] at hk
    rcases hk with rfl | rfl | rfl | rfl | rfl | rfl | rfl | rfl | rfl | rfl
    · rcases t1 f1 with h' | h'
      · simp [initCE] at h'
      · exact h'
    · rcases t2 f2 with h' | h'
      · simp [initCE] at h'
      · exact h'
    · rcases t3 f3 with h' | h'
      · simp [initCE] at h'
      · exact h'
    · rcases t4 f4 with h' | h'
      · simp [initCE] at h'
      · exact h'
    · rcases t5 f5 with h' | h'
      · simp [initCE] at h'
      · exact h'
    · rcases t6 f6 with h' | h'
      · simp [initCE] at h'
      · exact h'
    · rcases t7 f7 with h' | h'
      · simp [initCE] at h'
      · exact h'
    · rcases t8 f8 with h' | h'
      · simp [initCE] at h'
      · exact h'
    · rcases t9 f9 with h' | h'
      · simp [initCE] at h'
      · exact h'
    · rcases t10 f10 with h' | h'
      · simp [initCE] at h'
      · exact h'

theorem walkCE_append (xs ys : List (String × JVal)) : ∀ acc : CEAcc,
    walkCE acc (xs ++ ys)
      = match walkCE acc xs with
        | .error e => .error e
        | .ok a => walkCE a ys := by
  induction xs with
  | nil => intro acc; rfl
  | cons kv rest ih =>
    intro acc
    simp only [List.cons_append, walkCE]
    cases stepCE acc kv with
    | error e => rfl
    | ok acc' => exact ih acc'

theorem walkCE_unknown_all (extras : List (String × JVal))
    (h : ∀ kv ∈ extras, kv.1 ∉ ceRequiredKeys) : ∀ acc : CEAcc,
    walkCE acc extras = .ok acc := by
  induction extras with
  | nil => intro acc; rfl
  | cons kv rest ih =>
    intro acc
    have hkv := h kv (List.mem_cons_self kv rest)
    simp only [ceRequiredKeys, List.mem_cons, List.not_mem_nil, or_false,
      not_or] at hkv
    obtain ⟨n1, n2, n3, n4, n5, n6, n7, n8, n9, n10⟩ := hkv
    simp only [walkCE]
    rw [show stepCE acc kv = .ok acc from by
      obtain ⟨kk, v⟩ := kv
      exact stepCE_unknown acc kk v n1 n2 n3 n4 n5 n6 n7 n8 n9 n10]
    exact ih (fun x hx => h x (List.mem_cons_of_mem kv hx)) acc

theorem walkCE_ceFields (e : ClientEvent)
    (h1 : e.x < u32Bound) (h2 : e.y < u32Bound) (h3 : e.button < u32Bound)
    (h4 : e.event < u32Bound) (h5 : e.relative_x < u32Bound)
    (h6 : e.relative_y < u32Bound) (h7 : e.width < u32Bound)
    (h8 : e.height < u32Bound) :
    walkCE initCE (ceFields e)
      = .ok ⟨some e.name, some e.«instance», some e.x, some e.y,
          some e.button, some e.event, some e.relative_x, some e.relative_y,
          some e.width, some e.height⟩ := by
  simp [ceFields, walkCE, stepCE, putStr, putU32, initCE,
    h1, h2, h3, h4, h5, h6, h7, h8]

/-- C8: serializing any `ClientEvent` (its two strings arbitrary, its
eight numbers any values a `u32` can hold) and deserializing the result
yields the original event, all ten fields intact. -/
theorem c8_json_roundtrip (e : ClientEvent)
    (h1 : e.x < u32Bound) (h2 : e.y < u32Bound) (h3 : e.button < u32Bound)
    (h4 : e.event < u32Bound) (h5 : e.relative_x < u32Bound)
    (h6 : e.relative_y < u32Bound) (h7 : e.width < u32Bound)
    (h8 : e.height < u32Bound) :
    decodeClientEvent (ceFields e) = .ok e := by
  unfold decodeClientEvent
  rw [walkCE_ceFields e h1 h2 h3 h4 h5 h6 h7 h8]
  rfl

/-- C7: deserializing a `ClientEvent` fails whenever the input object
misses any of the ten required fields (whatever else the object holds),
and succeeds unchanged when extra unknown members follow the ten required
ones — unknown keys are skipped. -/
theorem c7_required_fields_and_unknown_fields
    (fields extras : List (String × JVal)) (k : String) (e : ClientEvent)
    (hk : k ∈ ceRequiredKeys) (hmiss : ∀ kv ∈ fields, kv.1 ≠ k)
    (hextras : ∀ kv ∈ extras, kv.1 ∉ ceRequiredKeys)
    (h1 : e.x < u32Bound) (h2 : e.y < u32Bound) (h3 : e.button < u32Bound)
    (h4 : e.event < u32Bound) (h5 : e.relative_x < u32Bound)
    (h6 : e.relative_y < u32Bound) (h7 : e.width < u32Bound)
    (h8 : e.height < u32Bound) :
    (∃ msg, decodeClientEvent fields = .error msg)
    ∧ decodeClientEvent (ceFields e ++ extras) = .ok e := by
  constructor
  · cases hdec : decodeClientEvent fields with
    | error msg => exact ⟨msg, rfl⟩
    | ok e' =>
      exfalso
      have hkeys := decode_ok_keys fields e' hdec k hk
      rcases List.mem_map.mp hkeys with ⟨kv, hkv, hfst⟩
      exact hmiss kv hkv hfst
  · unfold decodeClientEvent
    rw [walkCE_append]
    rw [walkCE_ceFields e h1 h2 h3 h4 h5 h6 h7 h8]
    simp only [walkCE_unknown_all extras hextras]
    rfl

/-- C7 witness: an object holding only `name` is rejected (it misses
`x`, among others); the full ten fields followed by an unknown member
`foo` decode to exactly the given event. -/
theorem c7_required_fields_and_unknown_fields_witness :
    (∃ msg, decodeClientEvent [("name", JVal.str "a")] = .error msg)
    ∧ decodeClientEvent
        (ceFields ⟨"n", "i", 1, 2, 3, 4, 5, 6, 7, 8⟩ ++ [("foo", JVal.num 7)])
        = .ok ⟨"n", "i", 1, 2, 3, 4, 5, 6, 7, 8⟩ :=
  c7_required_fields_and_unknown_fields [("name", JVal.str "a")]
    [("foo", JVal.num 7)] "x" ⟨"n", "i", 1, 2, 3, 4, 5, 6, 7, 8⟩
    (by decide) (by decide) (by decide) (by decide) (by decide) (by decide)
    (by decide) (by decide) (by decide) (by decide) (by decide)

/-- C8 witness: a concrete event round-trips. -/
theorem c8_json_roundtrip_witness :
    decodeClientEvent (ceFields ⟨"a", "b", 1, 2, 3, 4, 5, 6, 7, 8⟩)
      = .ok ⟨"a", "b", 1, 2, 3, 4, 5, 6, 7, 8⟩ :=
  c8_json_roundtrip ⟨"a", "b", 1, 2, 3, 4, 5, 6, 7, 8⟩
    (by decide) (by decide) (by decide) (by decide) (by decide) (by decide)
    (by decide) (by decide)
